import Mathlib

/-!
Verification of the llm-axe extraction pipeline (va1_url_selector.py,
va2_response_template.py, va3_scraper_to_template.py) against its
specification.  Python strings are modelled as `List Char` (character
classes are modelled over their ASCII meaning); JSON values as the
inductive `Json`; machine behaviour such as dict lookup, `str.strip`,
substring tests and the concrete regular expressions of the source are
translated function by function.
-/

namespace LlmAxe

/-! ## Python-style character and string helpers -/

/-- Whitespace as Python's `str.strip` / `\s` sees it (ASCII part). -/
def pyIsSpace (c : Char) : Bool :=
  c == ' ' || c == '\t' || c == '\n' || c == '\r' || c == '\x0b' || c == '\x0c'

/-- Word characters for the `\b` boundary of `DATE_SLASH_RE` (ASCII `\w`). -/
def isWordChar (c : Char) : Bool := c.isAlphanum || c == '_'

/-- Python `str.strip()`: drop whitespace from both ends. -/
def pyStrip (l : List Char) : List Char :=
  ((l.dropWhile pyIsSpace).reverse.dropWhile pyIsSpace).reverse

/-- Python's substring test `needle in hay`. -/
def containsSub (needle : List Char) : List Char → Bool
  | [] => needle.isEmpty
  | c :: t => if needle.isPrefixOf (c :: t) then true else containsSub needle t

/-- Python `str.lower()` (ASCII letters). -/
def lowerList (l : List Char) : List Char := l.map Char.toLower

/-- Length of the longest run of characters satisfying `p` at the front. -/
def countWhile (p : Char → Bool) (l : List Char) : Nat := (l.takeWhile p).length

/-- Python `str.split(",")`: split at every comma, empty pieces kept. -/
def splitComma : List Char → List (List Char)
  | [] => [[]]
  | c :: cs =>
    if c == ',' then [] :: splitComma cs
    else
      match splitComma cs with
      | g :: gs => (c :: g) :: gs
      | [] => [[c]]

/-! ## JSON values

The untyped value tree a model reply decodes to (`CandidateRecord` of the
spec).  Numbers are modelled as integers. -/

inductive Json where
  | null : Json
  | bool : Bool → Json
  | num : Int → Json
  | str : List Char → Json
  | arr : List Json → Json
  | obj : List (String × Json) → Json

/-- Whether a JSON value is an object (Python `isinstance(x, dict)`). -/
def isJsonObj : Json → Bool
  | .obj _ => true
  | _ => false

/-! Python `repr`/`str` renderings of decoded JSON values, used by
`_ensure_list_of_strings` (string escaping inside `repr` is not modelled;
no claim depends on it). -/

mutual

def pyRepr : Json → List Char
  | .null => "None".toList
  | .bool true => "True".toList
  | .bool false => "False".toList
  | .num n => (toString n).toList
  | .str s => '\x27' :: s ++ ['\x27']
  | .arr l => '[' :: pyReprList l ++ [']']
  | .obj f => '\x7b' :: pyReprFields f ++ ['\x7d']

def pyReprList : List Json → List Char
  | [] => []
  | [x] => pyRepr x
  | x :: y :: r => pyRepr x ++ ',' :: ' ' :: pyReprList (y :: r)

def pyReprFields : List (String × Json) → List Char
  | [] => []
  | [(k, v)] => '\x27' :: k.toList ++ '\x27' :: ':' :: ' ' :: pyRepr v
  | (k, v) :: e :: r =>
    '\x27' :: k.toList ++ '\x27' :: ':' :: ' ' :: pyRepr v ++ ',' :: ' ' :: pyReprFields (e :: r)

end

/-- Python `str(v)` on a decoded JSON value. -/
def pyStr : Json → List Char
  | .str s => s
  | v => pyRepr v

/-- Escaping of one character inside `json.dumps` string output
(`ensure_ascii=False`; `\uXXXX` control escapes are simplified to the
common short escapes plus a marker for other controls). -/
def jsonEscapeChar (c : Char) : List Char :=
  if c == '"' then ['\\', '"']
  else if c == '\\' then ['\\', '\\']
  else if c == '\n' then ['\\', 'n']
  else if c == '\t' then ['\\', 't']
  else if c == '\r' then ['\\', 'r']
  else [c]

def jsonEscape (s : List Char) : List Char := s.flatMap jsonEscapeChar

mutual

def jsonDumps : Json → List Char
  | .null => "null".toList
  | .bool true => "true".toList
  | .bool false => "false".toList
  | .num n => (toString n).toList
  | .str s => '"' :: jsonEscape s ++ ['"']
  | .arr l => '[' :: jsonDumpsList l ++ [']']
  | .obj f => '\x7b' :: jsonDumpsFields f ++ ['\x7d']

def jsonDumpsList : List Json → List Char
  | [] => []
  | [x] => jsonDumps x
  | x :: y :: r => jsonDumps x ++ ',' :: ' ' :: jsonDumpsList (y :: r)

def jsonDumpsFields : List (String × Json) → List Char
  | [] => []
  | [(k, v)] => '"' :: k.toList ++ '"' :: ':' :: ' ' :: jsonDumps v
  | (k, v) :: e :: r =>
    '"' :: k.toList ++ '"' :: ':' :: ' ' :: jsonDumps v ++ ',' :: ' ' :: jsonDumpsFields (e :: r)

end

/-! ## Date normalization (`_to_iso_dates_in_text`, `DATE_SLASH_RE`)

`DATE_SLASH_RE = \b(\d{2})/(\d{2})/(\d{4})\b`; a valid calendar date is
rewritten via `datetime(...).strftime("%Y-%m-%d")`, an invalid one is left
as the matched text.  `re.sub` scans left to right, replacing
non-overlapping matches and resuming after each match. -/

def digitToNat (c : Char) : Nat := c.toNat - 48

def isLeapYear (y : Nat) : Bool :=
  y % 4 == 0 && (y % 100 != 0 || y % 400 == 0)

def daysInMonth (y m : Nat) : Nat :=
  if m = 2 then (if isLeapYear y then 29 else 28)
  else if m = 4 ∨ m = 6 ∨ m = 9 ∨ m = 11 then 30
  else 31

/-- Validity of `datetime(y, m, d)` (raises `ValueError` otherwise). -/
def validDate (y m d : Nat) : Bool :=
  decide (1 ≤ y) && decide (y ≤ 9999) && decide (1 ≤ m) && decide (m ≤ 12) &&
  decide (1 ≤ d) && decide (d ≤ daysInMonth y m)

/-- Zero-padded two-digit rendering (`%m`, `%d`). -/
def pad2 (n : Nat) : List Char :=
  if n < 10 then '0' :: Nat.toDigits 10 n else Nat.toDigits 10 n

/-- Rendering of `strftime("%Y-%m-%d")` (`%Y` unpadded, as glibc renders
years; all years reached from a `\d{4}` group with a nonzero leading digit
render identically either way). -/
def isoRender (y m d : Nat) : List Char :=
  Nat.toDigits 10 y ++ '-' :: pad2 m ++ '-' :: pad2 d

/-- Attempt of `DATE_SLASH_RE` anchored at the current position:
`prev` is the character before the position (`none` at string start) for
the leading `\b`; on success, the emitted replacement and the last matched
character (the new `prev`); the match always spans exactly 10 characters. -/
def tryDateMatch (prev : Option Char) (l : List Char) : Option (List Char × Char) :=
  match l with
  | d1 :: d2 :: s1 :: m1 :: m2 :: s2 :: y1 :: y2 :: y3 :: y4 :: rest =>
    if (match prev with | none => true | some p => !isWordChar p)
        && s1 == '/' && s2 == '/'
        && d1.isDigit && d2.isDigit && m1.isDigit && m2.isDigit
        && y1.isDigit && y2.isDigit && y3.isDigit && y4.isDigit
        && (match rest with | [] => true | c :: _ => !isWordChar c) then
      let d := 10 * digitToNat d1 + digitToNat d2
      let m := 10 * digitToNat m1 + digitToNat m2
      let y := 1000 * digitToNat y1 + 100 * digitToNat y2 + 10 * digitToNat y3 + digitToNat y4
      some ((if validDate y m d then isoRender y m d
             else [d1, d2, '/', m1, m2, '/', y1, y2, y3, y4]), y4)
    else none
  | _ => none

/-- The `re.sub` scan.  Fuel bounds the recursion; every step consumes at
least one character, so fuel equal to the string length is sufficient. -/
def dateSubF : Nat → Option Char → List Char → List Char
  | 0, _, l => l
  | _ + 1, _, [] => []
  | fuel + 1, prev, c :: cs =>
    match tryDateMatch prev (c :: cs) with
    | some (em, lastc) => em ++ dateSubF fuel (some lastc) (cs.drop 9)
    | none => c :: dateSubF fuel (some c) cs

/-- Source `_to_iso_dates_in_text`. -/
def to_iso_dates_in_text (s : List Char) : List Char :=
  if s.isEmpty then s else dateSubF s.length none s

/-! ## Anchoring helpers (`_present_in_page`, `MONEY_TOKEN_RE`) -/

/-- Source `_present_in_page`: false for the empty value, otherwise the
substring test `val in (page_text or "")`. -/
def present_in_page (val page : List Char) : Bool :=
  if val.isEmpty then false else containsSub val page

/-- Search of `MONEY_TOKEN_RE` anywhere in the page.  The source line's
character class is the byte sequence `C3A2 E2809A C2AC 24`: the three
characters U+00E2, U+201A, U+00AC (a euro sign that was double-encoded
into mojibake when the file was written) plus the dollar sign — NOT the
euro sign U+20AC itself.  `re.IGNORECASE` makes U+00E2 also match its
case pair U+00C2; U+201A, U+00AC and `$` have no case pairs.  The word
alternatives `EUR|USD|euro|dollar` match case-insensitively. -/
def moneyTokenIn (page : List Char) : Bool :=
  page.any (fun c =>
    c == 'â' || c == 'Â' || c == '‚' || c == '¬' || c == '$')
  || containsSub "eur".toList (lowerList page)
  || containsSub "usd".toList (lowerList page)
  || containsSub "euro".toList (lowerList page)
  || containsSub "dollar".toList (lowerList page)

/-- Stated from the spec's words, for comparison: a "currency indicator
token" as the claim describes it — a currency symbol (the euro sign
U+20AC or the dollar sign) or the words `EUR`/`USD`/`euro`/`dollar`,
case-insensitively. -/
def claimCurrencyToken (page : List Char) : Bool :=
  page.any (fun c => c == '€' || c == '$')
  || containsSub "eur".toList (lowerList page)
  || containsSub "usd".toList (lowerList page)
  || containsSub "euro".toList (lowerList page)
  || containsSub "dollar".toList (lowerList page)

/-! ## Contact extraction (`EMAIL_RE`, `PHONE_RE`, `URL_RE`,
`_contacts_from_page`)

Each matcher reproduces the greedy/backtracking semantics of its pattern
anchored at one position, returning the match length; a generic scanner
reproduces `findall`/`finditer`: try each position left to right, resume
after a match (non-overlapping). -/

/-- Characters of `[A-Za-z0-9._%+-]` (the local part of `EMAIL_RE`). -/
def isLocalChar (c : Char) : Bool :=
  c.isAlphanum || c == '.' || c == '_' || c == '%' || c == '+' || c == '-'

/-- Characters of `[A-Za-z0-9.-]` (the domain part of `EMAIL_RE`). -/
def isDomainChar (c : Char) : Bool := c.isAlphanum || c == '.' || c == '-'

/-- Backtracking of the greedy `[A-Za-z0-9.-]+` before `\.[A-Za-z]{2,}`:
try the largest consumption first; `rest` is the text after `@`; on
success, the consumption length and the following alphabetic run length. -/
def domSplitSearch (rest : List Char) : Nat → Option (Nat × Nat)
  | 0 => none
  | t + 1 =>
    if rest.get? (t + 1) == some '.' then
      let a := countWhile Char.isAlpha (rest.drop (t + 2))
      if 2 ≤ a then some (t + 1, a) else domSplitSearch rest t
    else domSplitSearch rest t

/-- Length of an `EMAIL_RE` match anchored at the front of `l`, if any. -/
def emailMatchLen (l : List Char) : Option Nat :=
  let lr := countWhile isLocalChar l
  if lr = 0 then none
  else
    match l.drop lr with
    | '@' :: rest =>
      let dr := countWhile isDomainChar rest
      match domSplitSearch rest dr with
      | some (c, a) => some (lr + 1 + c + 1 + a)
      | none => none
    | _ => none

/-- One repetition of `(?:\d[\s-]?)` is a digit plus an optional
(greedily taken) separator; this counts up to `cap` repetitions and the
characters they consume. -/
def phoneRepsF : Nat → List Char → Nat × Nat
  | 0, _ => (0, 0)
  | _ + 1, [] => (0, 0)
  | cap + 1, c :: cs =>
    if c.isDigit then
      match cs with
      | d :: rest =>
        if pyIsSpace d || d == '-' then
          let p := phoneRepsF cap rest
          (p.1 + 1, p.2 + 2)
        else
          let p := phoneRepsF cap cs
          (p.1 + 1, p.2 + 1)
      | [] => (1, 1)
    else (0, 0)

def digitRun (l : List Char) : Nat := countWhile Char.isDigit l

def headIsSpace (l : List Char) : Bool :=
  match l with
  | c :: _ => pyIsSpace c
  | [] => false

/-- Candidate consumption lengths of the optional `(?:\+\d{1,3}\s?)?` in
regex backtracking order: more digits first, a present `\s` taken before
skipped, the absent group last. -/
def phonePrefixCandsAux (rest : List Char) : Nat → List Nat
  | 0 => []
  | i + 1 =>
    let base := 1 + (i + 1)
    (if headIsSpace (rest.drop (i + 1)) then [base + 1, base] else [base])
      ++ phonePrefixCandsAux rest i

def phonePrefixCands (l : List Char) : List Nat :=
  match l with
  | '+' :: rest => phonePrefixCandsAux rest (min 3 (digitRun rest)) ++ [0]
  | _ => [0]

def firstSome (f : α → Option β) : List α → Option β
  | [] => none
  | a :: as =>
    match f a with
    | some b => some b
    | none => firstSome f as

/-- Length of a `PHONE_RE` match anchored at the front of `l`: the first
prefix choice after which `(?:\d[\s-]?){7,15}` reaches at least 7
repetitions. -/
def phoneMatchLen (l : List Char) : Option Nat :=
  firstSome
    (fun pc =>
      let p := phoneRepsF 15 (l.drop pc)
      if 7 ≤ p.1 then some (pc + p.2) else none)
    (phonePrefixCands l)

def urlTailChar (c : Char) : Bool := !(pyIsSpace c || c == ')')

/-- Length of a `URL_RE = https?://[^\s\)]+` match anchored at the front. -/
def urlMatchLen (l : List Char) : Option Nat :=
  if ("https://".toList).isPrefixOf l then
    let r := countWhile urlTailChar (l.drop 8)
    if 1 ≤ r then some (8 + r) else none
  else if ("http://".toList).isPrefixOf l then
    let r := countWhile urlTailChar (l.drop 7)
    if 1 ≤ r then some (7 + r) else none
  else none

/-- Non-overlapping left-to-right scan (`findall`/`finditer`).  Fuel
bounds the recursion; every step consumes at least one character (our
matchers never return length 0), so fuel equal to the length suffices. -/
def scanWithF (matchLen : List Char → Option Nat) : Nat → List Char → List (List Char)
  | 0, _ => []
  | _ + 1, [] => []
  | fuel + 1, c :: cs =>
    match matchLen (c :: cs) with
    | some n => (c :: cs).take n :: scanWithF matchLen fuel (cs.drop (n - 1))
    | none => scanWithF matchLen fuel cs

def scanWith (matchLen : List Char → Option Nat) (l : List Char) : List (List Char) :=
  scanWithF matchLen l.length l

def emailsFound (page : List Char) : List (List Char) := scanWith emailMatchLen page

/-- Phone matches are collected as `m.group(0).strip()`. -/
def phonesFound (page : List Char) : List (List Char) :=
  (scanWith phoneMatchLen page).map pyStrip

def urlsFound (page : List Char) : List (List Char) := scanWith urlMatchLen page

/-! Python `sorted(set(...))` over strings: the strictly increasing
enumeration under code-point lexicographic order; modelled as insertion
sort of the deduplicated list. -/

def lexLe : List Char → List Char → Bool
  | [], _ => true
  | _ :: _, [] => false
  | a :: as, b :: bs => if a < b then true else if b < a then false else lexLe as bs

def insertLex (a : List Char) : List (List Char) → List (List Char)
  | [] => [a]
  | b :: bs => if lexLe a b then a :: b :: bs else b :: insertLex a bs

def sortLex : List (List Char) → List (List Char)
  | [] => []
  | a :: as => insertLex a (sortLex as)

def sortedSet (l : List (List Char)) : List (List Char) := sortLex l.dedup

/-- Strict code-point lexicographic order between distinct strings. -/
def lexLt (a b : List Char) : Prop := lexLe a b = true ∧ a ≠ b

/-- Source `_contacts_from_page`: emails, then phones, then URLs, each
category deduplicated and sorted, rendered as in the source. -/
def contacts_from_page (page : List Char) : List (List Char) :=
  (sortedSet (emailsFound page)).map (fun e => "email: ".toList ++ e)
  ++ (sortedSet (phonesFound page)).map (fun p => "phone: ".toList ++ p)
  ++ sortedSet (urlsFound page)

/-! ## The schema and `_ensure_list_of_strings` -/

/-- Source `TEMPLATE_DEFAULT[0]`, key order as written. -/
def TEMPLATE_DEFAULT_FIELDS : List (String × Json) :=
  [("programme_name", .str []),
   ("description", .str []),
   ("programme_objective", .str []),
   ("eligible_parties", .arr []),
   ("eligibility_criteria", .arr []),
   ("property_requirements", .arr []),
   ("minimum_funding_amount", .str []),
   ("maximum_funding_amount", .str []),
   ("funding_type", .str []),
   ("interest_rate", .str []),
   ("funding_coverage", .str []),
   ("total_budget", .str []),
   ("funding_sources", .arr []),
   ("duration", .str []),
   ("loan_duration", .str []),
   ("completion_deadline", .str []),
   ("application_start_date", .str []),
   ("application_end_date", .str []),
   ("energy_performance_targets", .str []),
   ("eligible_interventions", .arr []),
   ("application_process", .str []),
   ("managing_body", .str []),
   ("announcement_date", .str []),
   ("contact_info", .arr []),
   ("additional_details", .str [])]

/-- Source `TEMPLATE_DEFAULT` (a one-object list). -/
def TEMPLATE_DEFAULT : List Json := [Json.obj TEMPLATE_DEFAULT_FIELDS]

/-- Source `ALLOWED_KEYS = set(TEMPLATE_DEFAULT[0].keys())`; the set is
modelled as the (duplicate-free) key list in template order. -/
def ALLOWED_KEYS : List String := TEMPLATE_DEFAULT_FIELDS.map Prod.fst

/-- Source `ARRAY_FIELDS`. -/
def ARRAY_FIELDS : List String :=
  ["eligible_parties", "eligibility_criteria", "property_requirements",
   "funding_sources", "eligible_interventions", "contact_info"]

/-- Source `SCALAR_FIELDS = ALLOWED_KEYS - ARRAY_FIELDS`. -/
def SCALAR_FIELDS : List String := ALLOWED_KEYS.filter (· ∉ ARRAY_FIELDS)

/-- The date-field set written inline in `sanitize_and_validate`. -/
def DATE_KEYS : List String :=
  ["application_start_date", "application_end_date", "announcement_date",
   "completion_deadline", "duration", "loan_duration"]

/-- The money-field set written inline in `sanitize_and_validate`. -/
def MONEY_KEYS : List String :=
  ["minimum_funding_amount", "maximum_funding_amount", "total_budget",
   "funding_coverage", "interest_rate"]

/-- The sub-key probe order of `_ensure_list_of_strings` for dict items. -/
def probeDictKeys : List String :=
  ["description", "intervention", "requirement", "item", "value", "text",
   "name", "title"]

/-- First probe key present with a string value of non-empty strip. -/
def dictProbe (fields : List (String × Json)) : List String → Option (List Char)
  | [] => none
  | k :: ks =>
    match fields.lookup k with
    | some (.str s) => if (pyStrip s).isEmpty then dictProbe fields ks else some (pyStrip s)
    | _ => dictProbe fields ks

/-- Python `str(v)` for `isinstance(v, (str, int, float))` values
(`bool` is an `int` in Python). -/
def primStr : Json → Option (List Char)
  | .str s => some s
  | .num n => some ((toString n).toList)
  | .bool true => some "True".toList
  | .bool false => some "False".toList
  | _ => none

/-- The fallback rendering of a dict item: stripped primitive values,
comma-joined. -/
def dictPrimParts (fields : List (String × Json)) : List (List Char) :=
  fields.filterMap fun kv =>
    match primStr kv.2 with
    | some t => if (pyStrip t).isEmpty then none else some (pyStrip t)
    | none => none

def joinCommaSpace (l : List (List Char)) : List Char := List.intercalate (", ".toList) l

/-- The per-item loop of `_ensure_list_of_strings` over a list value. -/
def listItemStrings : List Json → List (List Char)
  | [] => []
  | .null :: r => listItemStrings r
  | .str s :: r =>
    if (pyStrip s).isEmpty then listItemStrings r else pyStrip s :: listItemStrings r
  | .obj f :: r =>
    (match dictProbe f probeDictKeys with
     | some t => t :: listItemStrings r
     | none =>
       let parts := dictPrimParts f
       if parts.isEmpty then listItemStrings r else joinCommaSpace parts :: listItemStrings r)
  | v :: r => pyStr v :: listItemStrings r

/-- Source `_ensure_list_of_strings`. -/
def ensure_list_of_strings : Json → List (List Char)
  | .null => []
  | .str s => ((splitComma s).map pyStrip).filter (fun t => !t.isEmpty)
  | .arr items => listItemStrings items
  | v => [pyStr v]

/-! ## `sanitize_and_validate` -/

/-- Python `result_obj.get(k, template_obj.get(k, ""))`. -/
def lookupDefault (cand templ : List (String × Json)) (k : String) : Json :=
  match cand.lookup k with
  | some v => v
  | none =>
    match templ.lookup k with
    | some v => v
    | none => Json.str []

/-- The scalar coercion of `sanitize_and_validate`:
`v if isinstance(v, str) else (json.dumps(v) if v not in (None, "") else "")`,
then `strip()`. -/
def scalarCoerce (v : Json) : List Char :=
  pyStrip
    (match v with
     | .str s => s
     | .null => []
     | w => jsonDumps w)

/-- The date step of the scalar branch. -/
def dateRewrite (k : String) (s : List Char) : List Char :=
  if k ∈ DATE_KEYS then to_iso_dates_in_text s else s

/-- The money-anchor step: keep only if anchored by a currency token or an
exact substring of the page. -/
def moneyAnchor (k : String) (s : List Char) (page : List Char) : List Char :=
  if k ∈ MONEY_KEYS then
    (if !s.isEmpty && (moneyTokenIn page || present_in_page s page) then s else [])
  else s

/-- The named-entity anchor step: require a page anchor for
`managing_body` and `programme_name`. -/
def anchorNamed (k : String) (s : List Char) (page : List Char) : List Char :=
  if (k = "managing_body" ∨ k = "programme_name")
      ∧ !s.isEmpty ∧ present_in_page s page = false then [] else s

/-- The scalar branch of the per-key loop: coercion, date rewriting, the
money anchor, then the named-entity anchor, in source order. -/
def sanitizeScalar (k : String) (v : Json) (page : List Char) : List Char :=
  anchorNamed k (moneyAnchor k (dateRewrite k (scalarCoerce v)) page) page

/-- A sanitized field value: a string for scalar fields, a list of
strings for array fields. -/
inductive SVal where
  | s : List Char → SVal
  | arr : List (List Char) → SVal
deriving DecidableEq

/-- The body of the per-key loop of `sanitize_and_validate`. -/
def sanitizeField (k : String) (v : Json) (page : List Char) : SVal :=
  if k ∈ ARRAY_FIELDS then
    SVal.arr (if k = "contact_info" then contacts_from_page page else ensure_list_of_strings v)
  else SVal.s (sanitizeScalar k v page)

/-- Source `sanitize_and_validate`: iterate the schema's keys, never the
candidate's. -/
def sanitize_and_validate (cand templ : List (String × Json)) (page : List Char) :
    List (String × SVal) :=
  ALLOWED_KEYS.map fun k => (k, sanitizeField k (lookupDefault cand templ k) page)

/-! ## The response parser (va3 `extract_json`, lines 166–197)

The cleaning stage is translated from the source.  `safe_read_json` is
imported from `llm_axe.core`, which is not part of this tree; it is
modelled below from the spec. -/

def pyFind (c : Char) (l : List Char) : Option Nat := l.findIdx? (· == c)

def pyRfind (c : Char) (l : List Char) : Option Nat :=
  (l.reverse.findIdx? (· == c)).map (fun i => l.length - 1 - i)

/-- Python `l[a:b]` for non-negative indices. -/
def pySlice (l : List Char) (a b : Nat) : List Char := (l.drop a).take (b - a)

/-- Python `s.replace(pat, new, 1)` for a non-empty `pat`. -/
def replaceFirst (pat new : List Char) : List Char → List Char
  | [] => []
  | c :: cs =>
    if pat.isPrefixOf (c :: cs) then new ++ (c :: cs).drop pat.length
    else c :: replaceFirst pat new cs

/-- Python `s.strip("\x60")`. -/
def stripBackticks (l : List Char) : List Char :=
  ((l.dropWhile (· == '\x60')).reverse.dropWhile (· == '\x60')).reverse

/-- The cleaning and slicing stage of va3 `extract_json`: strip, remove a
code fence plus a leading `json` label, and when the text does not start
with `[`, slice between the first `[` and last `]` (falling back to the
first `\x7b` and last `\x7d`). -/
def cleanReply (raw : List Char) : List Char :=
  let cleaned := pyStrip raw
  let cleaned :=
    if ("\x60\x60\x60".toList).isPrefixOf cleaned then
      pyStrip (replaceFirst "json".toList [] (stripBackticks cleaned))
    else cleaned
  if !(("[".toList).isPrefixOf (pyStrip cleaned)) then
    match pyFind '[' cleaned, pyRfind ']' cleaned with
    | some s, some e => pySlice cleaned s (e + 1)
    | _, _ =>
      match pyFind '\x7b' cleaned, pyRfind '\x7d' cleaned with
      | some s, some e => pySlice cleaned s (e + 1)
      | _, _ => cleaned
  else cleaned

/-! Modelled from the spec: `safe_read_json` ("attempt structured decoding
of the slice") is the missing `llm_axe.core` helper; it is modelled as a
standard JSON decode returning `none` on any failure.  Numbers are decoded
as integers and `\uXXXX` string escapes are not modelled. -/

def jsonWsChar (c : Char) : Bool := c == ' ' || c == '\t' || c == '\n' || c == '\r'

def skipWs (l : List Char) : List Char := l.dropWhile jsonWsChar

def escVal (e : Char) : Option Char :=
  if e == '"' then some '"'
  else if e == '\\' then some '\\'
  else if e == '/' then some '/'
  else if e == 'n' then some '\n'
  else if e == 't' then some '\t'
  else if e == 'r' then some '\r'
  else if e == 'b' then some '\x08'
  else if e == 'f' then some '\x0c'
  else none

def parseStringBody : List Char → Option (List Char × List Char)
  | [] => none
  | '"' :: r => some ([], r)
  | '\\' :: e :: r =>
    match escVal e with
    | some c => (parseStringBody r).map (fun p => (c :: p.1, p.2))
    | none => none
  | c :: r => (parseStringBody r).map (fun p => (c :: p.1, p.2))

def digitsToNat (ds : List Char) : Nat := ds.foldl (fun a c => 10 * a + digitToNat c) 0

def parseNatToken (l : List Char) : Option (Nat × List Char) :=
  let ds := l.takeWhile Char.isDigit
  if ds.isEmpty then none else some (digitsToNat ds, l.drop ds.length)

def parseNumToken (l : List Char) : Option (Int × List Char) :=
  match l with
  | '-' :: r => (parseNatToken r).map (fun p => (-(p.1 : Int), p.2))
  | _ => (parseNatToken l).map (fun p => ((p.1 : Int), p.2))

/-- Elements of an array after its `[`, first element not yet parsed. -/
def parseItems (pv : List Char → Option (Json × List Char)) :
    Nat → List Char → Option (List Json × List Char)
  | 0, _ => none
  | f + 1, l =>
    match pv l with
    | some (v, r) =>
      match skipWs r with
      | ',' :: r2 => (parseItems pv f r2).map (fun p => (v :: p.1, p.2))
      | ']' :: r2 => some ([v], r2)
      | _ => none
    | none => none

/-- Members of an object after its `\x7b`, first member not yet parsed. -/
def parseFieldsAux (pv : List Char → Option (Json × List Char)) :
    Nat → List Char → Option (List (String × Json) × List Char)
  | 0, _ => none
  | f + 1, l =>
    match skipWs l with
    | '"' :: r =>
      match parseStringBody r with
      | some (k, r2) =>
        match skipWs r2 with
        | ':' :: r3 =>
          match pv r3 with
          | some (v, r4) =>
            match skipWs r4 with
            | ',' :: r5 => (parseFieldsAux pv f r5).map (fun p => ((String.mk k, v) :: p.1, p.2))
            | '\x7d' :: r5 => some ([(String.mk k, v)], r5)
            | _ => none
          | none => none
        | _ => none
      | none => none
    | _ => none

def parseVal : Nat → List Char → Option (Json × List Char)
  | 0, _ => none
  | fuel + 1, l =>
    match skipWs l with
    | '"' :: r => (parseStringBody r).map (fun p => (Json.str p.1, p.2))
    | '[' :: r =>
      (match skipWs r with
       | ']' :: r2 => some (Json.arr [], r2)
       | _ => (parseItems (parseVal fuel) fuel (skipWs r)).map (fun p => (Json.arr p.1, p.2)))
    | '\x7b' :: r =>
      (match skipWs r with
       | '\x7d' :: r2 => some (Json.obj [], r2)
       | _ => (parseFieldsAux (parseVal fuel) fuel r).map (fun p => (Json.obj p.1, p.2)))
    | 't' :: r => if ("rue".toList).isPrefixOf r then some (Json.bool true, r.drop 3) else none
    | 'f' :: r => if ("alse".toList).isPrefixOf r then some (Json.bool false, r.drop 4) else none
    | 'n' :: r => if ("ull".toList).isPrefixOf r then some (Json.null, r.drop 3) else none
    | l2 => (parseNumToken l2).map (fun p => (Json.num p.1, p.2))

/-- Modelled from the spec: `safe_read_json` decodes the whole text as one
JSON document, `none` on failure. -/
def safe_read_json (l : List Char) : Option Json :=
  match parseVal (l.length + 1) l with
  | some (v, rest) => if (skipWs rest).isEmpty then some v else none
  | none => none

/-- The parsing portion of va3 `extract_json`: clean, decode, and require
a non-empty array whose first element is an object; `none` models the
raised `ValueError`. -/
def extract_json (raw : List Char) : Option (List Json) :=
  match safe_read_json (cleanReply raw) with
  | some (.arr (x :: xs)) => if isJsonObj x then some (x :: xs) else none
  | _ => none

/-! ## The progress monitor (va1 `run_with_warning`)

The worker thread writes the wrapped call's outcome into a single-slot
holder; the caller joins and then re-raises or returns.  The heartbeat
thread's emissions depend only on the chosen step list and on how many
intervals the scheduler lets it run (`k`), which is abstracted as an
argument together with the elapsed seconds it would observe. -/

inductive Slot (α ε : Type) where
  | empty : Slot α ε
  | value : α → Slot α ε
  | exc : ε → Slot α ε

/-- The worker body `target`: one write to the result slot. -/
def targetWrite (call : Unit → Except ε α) : Slot α ε :=
  match call () with
  | .ok v => .value v
  | .error e => .exc e

def pyTruthyOptStr : Option (List Char) → Bool
  | none => false
  | some s => !s.isEmpty

def defaultWaitMsg : List Char :=
  "[INFO] Please wait, your request is being processed...".toList

/-- The step-selection chain of the heartbeat (`if activity_steps: ...
elif activity_msg: ... elif warning_msg: ... else ...`, Python
truthiness). -/
def chooseSteps (activity_steps : List (List Char))
    (activity_msg warning_msg : Option (List Char)) : List (List Char) :=
  if !activity_steps.isEmpty then activity_steps
  else if pyTruthyOptStr activity_msg then [activity_msg.getD []]
  else if pyTruthyOptStr warning_msg then [warning_msg.getD []]
  else [defaultWaitMsg]

def stillWorkingMsg (elapsed : Nat) : List Char :=
  "[INFO] Still working, elapsed ".toList ++ Nat.toDigits 10 elapsed
  ++ "s. I\x27m still processing and will finish soon...".toList

/-- The lines the heartbeat prints over `k` iterations: the steps in
order, then generic still-working lines. -/
def heartbeatLines (steps : List (List Char)) (elapsedAt : Nat → Nat) (k : Nat) :
    List (List Char) :=
  (List.range k).map fun i =>
    match steps.get? i with
    | some m => m
    | none => stillWorkingMsg (elapsedAt i)

/-- Source `run_with_warning`: the emitted status lines together with the
outcome delivered to the caller (`raise result['exc']` or
`result.get('value')`, whose possible `None` is the `none` of the
`Option`). -/
def run_with_warning (call : Unit → Except ε α) (activity_steps : List (List Char))
    (activity_msg warning_msg : Option (List Char)) (elapsedAt : Nat → Nat) (k : Nat) :
    List (List Char) × Except ε (Option α) :=
  let slot := targetWrite call
  (heartbeatLines (chooseSteps activity_steps activity_msg warning_msg) elapsedAt k,
   match slot with
   | .exc e => .error e
   | .value v => .ok (some v)
   | .empty => .ok none)

/-! ## The content fetcher (va2 `read_link`, `is_probable_pdf_url`)

The external extraction collaborators (`read_website`; `fetch_pdf_bytes`
plus `read_pdf`) are oracles mapping the attempt number to an outcome:
an exception, or extracted text. -/

def is_probable_pdf_url (url : List Char) : Bool :=
  (".pdf".toList).isSuffixOf (lowerList url)
  || containsSub "content-type=application/pdf".toList (lowerList url)

/-- Failure classification recorded in `last_err`: a caught exception, or
the synthetic `RuntimeError` for empty extracted text. -/
inductive FetchFail (ε : Type) where
  | ext : ε → FetchFail ε
  | emptyBody : FetchFail ε
  | emptyPdfText : FetchFail ε

/-- One retry loop of `read_link`: attempt indices `i, i+1, ...` with
`r` retries left after the current attempt; first non-empty,
non-whitespace text wins; otherwise the last attempt's failure is
raised. -/
def tryAttempts (f : Nat → Except ε (List Char)) (emptyE : FetchFail ε) :
    Nat → Nat → Except (FetchFail ε) (List Char)
  | i, 0 =>
    match f i with
    | .ok t => if !(pyStrip t).isEmpty then .ok t else .error emptyE
    | .error e => .error (.ext e)
  | i, r + 1 =>
    match f i with
    | .ok t => if !(pyStrip t).isEmpty then .ok t else tryAttempts f emptyE (i + 1) r
    | .error _ => tryAttempts f emptyE (i + 1) r

/-- Source `read_link`: the HTML loop runs exactly when the URL is not
PDF-like, the PDF loop exactly when it is; with no applicable success the
final `RuntimeError` carries the last underlying cause. -/
def read_link (url : List Char) (html pdf : Nat → Except ε (List Char))
    (max_retries : Nat) : Except (FetchFail ε) (List Char) :=
  if !is_probable_pdf_url url then tryAttempts html FetchFail.emptyBody 0 max_retries
  else tryAttempts pdf FetchFail.emptyPdfText 0 max_retries

/-- Whether attempt `i` yields non-empty, non-whitespace text. -/
def attemptGood (f : Nat → Except ε (List Char)) (i : Nat) : Bool :=
  match f i with
  | .ok t => !(pyStrip t).isEmpty
  | .error _ => false

/-- First good attempt index among `i, ..., i + r`, if any. -/
def firstGoodFrom (f : Nat → Except ε (List Char)) : Nat → Nat → Option Nat
  | i, 0 => if attemptGood f i then some i else none
  | i, r + 1 => if attemptGood f i then some i else firstGoodFrom f (i + 1) r

def attemptText (f : Nat → Except ε (List Char)) (i : Nat) : List Char :=
  match f i with
  | .ok t => t
  | .error _ => []

/-- Classification of the last attempt's failure. -/
def lastCause (f : Nat → Except ε (List Char)) (emptyE : FetchFail ε) (n : Nat) :
    FetchFail ε :=
  match f n with
  | .error e => .ext e
  | .ok _ => emptyE

/-! ## The schema override loader (va2 `load_response_template`)

The file system is abstracted as: whether the path exists, and the
outcome of opening plus `json.load` (an exception, or a decoded value). -/

/-- Source `load_response_template`. -/
def load_response_template (fileExists : Bool) (readOutcome : Except Unit Json) :
    List Json :=
  if fileExists then
    match readOutcome with
    | .ok (.arr (x :: xs)) => if isJsonObj x then x :: xs else TEMPLATE_DEFAULT
    | _ => TEMPLATE_DEFAULT
  else TEMPLATE_DEFAULT

/-- Stated from the spec's words, for comparison: a top-level value that
is "a list containing exactly one object". -/
def claimExactlyOneObject : Except Unit Json → Bool
  | .ok (.arr [x]) => isJsonObj x
  | _ => false

/-- The shape the code actually accepts: a non-empty list whose first
element is an object. -/
def overrideShapeOk : Except Unit Json → Bool
  | .ok (.arr (x :: _)) => isJsonObj x
  | _ => false

/-- The returned override content in the accepted case. -/
def overrideContent : Except Unit Json → List Json
  | .ok (.arr l) => l
  | _ => []

/-! ## Helper lemmas -/

theorem lookup_map_pair {β : Type} (f : String → β) :
    ∀ (L : List String) (k : String), k ∈ L →
      List.lookup k (L.map fun a => (a, f a)) = some (f k) := by
  intro L
  induction L with
  | nil => intro k h; cases h
  | cons a as ih =>
    intro k h
    by_cases hka : k = a
    · subst hka
      simp [List.lookup]
    · have hne : (k == a) = false := by simp [hka]
      rcases List.mem_cons.mp h with h1 | h1
      · exact absurd h1 hka
      · simp [List.lookup, hne]
        exact ih k h1

theorem lookup_map_pair_none {β : Type} (f : String → β) :
    ∀ (L : List String) (k : String), k ∉ L →
      List.lookup k (L.map fun a => (a, f a)) = none := by
  intro L
  induction L with
  | nil => intro k _; rfl
  | cons a as ih =>
    intro k h
    have hka : k ≠ a := fun he => h (he ▸ List.mem_cons_self a as)
    have hne : (k == a) = false := by simp [hka]
    simp only [List.map_cons, List.lookup, hne]
    exact ih k (fun hm => h (List.mem_cons_of_mem a hm))

theorem lookup_sanitize (cand templ : List (String × Json)) (page : List Char)
    (k : String) (hk : k ∈ ALLOWED_KEYS) :
    List.lookup k (sanitize_and_validate cand templ page)
      = some (sanitizeField k (lookupDefault cand templ k) page) :=
  lookup_map_pair (fun a => sanitizeField a (lookupDefault cand templ a) page)
    ALLOWED_KEYS k hk

theorem lookup_sanitize_none (cand templ : List (String × Json)) (page : List Char)
    (k : String) (hk : k ∉ ALLOWED_KEYS) :
    List.lookup k (sanitize_and_validate cand templ page) = none :=
  lookup_map_pair_none (fun a => sanitizeField a (lookupDefault cand templ a) page)
    ALLOWED_KEYS k hk

theorem sanitize_keys_eq (cand templ : List (String × Json)) (page : List Char) :
    (sanitize_and_validate cand templ page).map Prod.fst = ALLOWED_KEYS := by
  unfold sanitize_and_validate
  rw [List.map_map]
  exact List.map_id ALLOWED_KEYS

theorem containsSub_nil_left (page : List Char) : containsSub [] page = true := by
  cases page <;> simp [containsSub]

theorem present_of_not_contains {s page : List Char}
    (h : containsSub s page = false) : present_in_page s page = false := by
  unfold present_in_page
  split <;> simp [h]

/-! Sorting lemmas: `sortedSet` yields a strictly increasing,
duplicate-free enumeration. -/

theorem lexLe_total (a b : List Char) : lexLe a b = true ∨ lexLe b a = true := by
  induction a generalizing b with
  | nil => left; rfl
  | cons x xs ih =>
    cases b with
    | nil => right; rfl
    | cons y ys =>
      by_cases hxy : x < y
      · left; simp [lexLe, hxy]
      · by_cases hyx : y < x
        · right; simp [lexLe, hyx, asymm hyx]
        · have h1 : lexLe (x :: xs) (y :: ys) = lexLe xs ys := by
            simp [lexLe, hxy, hyx]
          have h2 : lexLe (y :: ys) (x :: xs) = lexLe ys xs := by
            simp [lexLe, hxy, hyx]
          rw [h1, h2]
          exact ih ys

theorem lexLe_trans : ∀ {a b c : List Char},
    lexLe a b = true → lexLe b c = true → lexLe a c = true := by
  intro a
  induction a with
  | nil => intro b c _ _; rfl
  | cons x xs ih =>
    intro b c hab hbc
    cases b with
    | nil => simp [lexLe] at hab
    | cons y ys =>
      cases c with
      | nil => simp [lexLe] at hbc
      | cons z zs =>
        rcases lt_trichotomy x y with hxy | hxy | hxy
        · rcases lt_trichotomy y z with hyz | hyz | hyz
          · simp [lexLe, lt_trans hxy hyz]
          · subst hyz; simp [lexLe, hxy]
          · simp [lexLe, hyz, asymm hyz] at hbc
        · subst hxy
          rcases lt_trichotomy x z with hxz | hxz | hxz
          · simp [lexLe, hxz]
          · subst hxz
            simp [lexLe, lt_irrefl] at hab hbc ⊢
            exact ih hab hbc
          · simp [lexLe, hxz, asymm hxz] at hbc
        · simp [lexLe, hxy, asymm hxy] at hab

theorem mem_insertLex {x a : List Char} :
    ∀ {l : List (List Char)}, x ∈ insertLex a l ↔ x = a ∨ x ∈ l := by
  intro l
  induction l with
  | nil => simp [insertLex]
  | cons b bs ih =>
    unfold insertLex
    split
    · simp
    · simp only [List.mem_cons, ih]
      tauto

theorem pairwise_insertLex {a : List Char} :
    ∀ {l : List (List Char)}, List.Pairwise (fun u v => lexLe u v = true) l →
      List.Pairwise (fun u v => lexLe u v = true) (insertLex a l) := by
  intro l
  induction l with
  | nil => intro _; simp [insertLex]
  | cons b bs ih =>
    intro hp
    rcases List.pairwise_cons.mp hp with ⟨hb, hbs⟩
    unfold insertLex
    split
    · rename_i hab
      refine List.pairwise_cons.mpr ⟨?_, hp⟩
      intro v hv
      rcases List.mem_cons.mp hv with rfl | hv
      · exact hab
      · exact lexLe_trans hab (hb v hv)
    · rename_i hab
      have hba : lexLe b a = true := by
        rcases lexLe_total a b with h | h
        · exact absurd h hab
        · exact h
      refine List.pairwise_cons.mpr ⟨?_, ih hbs⟩
      intro v hv
      rcases mem_insertLex.mp hv with rfl | hv
      · exact hba
      · exact hb v hv

theorem pairwise_sortLex (l : List (List Char)) :
    List.Pairwise (fun u v => lexLe u v = true) (sortLex l) := by
  induction l with
  | nil => simp [sortLex]
  | cons a as ih => exact pairwise_insertLex ih

theorem perm_insertLex (a : List Char) :
    ∀ (l : List (List Char)), List.Perm (insertLex a l) (a :: l) := by
  intro l
  induction l with
  | nil => simp [insertLex]
  | cons b bs ih =>
    unfold insertLex
    split
    · exact List.Perm.refl _
    · exact (List.Perm.cons b ih).trans (List.Perm.swap a b bs)

theorem perm_sortLex : ∀ (l : List (List Char)), List.Perm (sortLex l) l := by
  intro l
  induction l with
  | nil => exact List.Perm.refl _
  | cons a as ih => exact (perm_insertLex a (sortLex as)).trans (List.Perm.cons a ih)

theorem nodup_sortedSet (l : List (List Char)) : (sortedSet l).Nodup :=
  (perm_sortLex l.dedup).symm.nodup (List.nodup_dedup l)

theorem pairwise_lt_sortedSet (l : List (List Char)) :
    List.Pairwise lexLt (sortedSet l) :=
  (pairwise_sortLex l.dedup).and (nodup_sortedSet l)

/-! Lemmas on the date rewriting scan. -/

theorem tryDateMatch_slashes {prev : Option Char} {l : List Char}
    {x : List Char × Char} (h : tryDateMatch prev l = some x) :
    2 ≤ List.count '/' l := by
  unfold tryDateMatch at h
  split at h
  · rename_i d1 d2 s1 m1 m2 s2 y1 y2 y3 y4 rest
    split at h
    · rename_i hc
      simp only [Bool.and_eq_true, beq_iff_eq] at hc
      obtain ⟨⟨⟨⟨⟨⟨⟨⟨⟨⟨⟨_, hs1⟩, hs2⟩, _⟩, _⟩, _⟩, _⟩, _⟩, _⟩, _⟩, _⟩, _⟩ := hc
      subst hs1; subst hs2
      have hsub : List.Sublist ['/', '/']
          (d1 :: d2 :: '/' :: m1 :: m2 :: '/' :: y1 :: y2 :: y3 :: y4 :: rest) :=
        List.Sublist.cons d1 (List.Sublist.cons d2 (List.Sublist.cons₂ '/'
          (List.Sublist.cons m1 (List.Sublist.cons m2 (List.Sublist.cons₂ '/'
            (List.nil_sublist _))))))
      have := hsub.count_le '/'
      simpa using this
    · exact absurd h (by simp)
  · exact absurd h (by simp)

theorem count_cons_ge {c a : Char} {l : List Char} :
    List.count c l ≤ List.count c (a :: l) := by
  rw [List.count_cons]
  split <;> omega

theorem dateSubF_unchanged (fuel : Nat) :
    ∀ (prev : Option Char) (l : List Char), List.count '/' l ≤ 1 →
      dateSubF fuel prev l = l := by
  induction fuel with
  | zero => intro prev l _; rfl
  | succ n ih =>
    intro prev l h
    cases l with
    | nil => rfl
    | cons c cs =>
      rw [dateSubF]
      cases htm : tryDateMatch prev (c :: cs) with
      | some x =>
        have := tryDateMatch_slashes htm
        omega
      | none =>
        have hcs : List.count '/' cs ≤ 1 := le_trans count_cons_ge h
        rw [ih (some c) cs hcs]

theorem to_iso_unchanged {s : List Char} (h : List.count '/' s ≤ 1) :
    to_iso_dates_in_text s = s := by
  unfold to_iso_dates_in_text
  split
  · rfl
  · exact dateSubF_unchanged s.length none s h

/-! Lemmas on the retry loop of `read_link`. -/

theorem tryAttempts_eq {ε : Type} (f : Nat → Except ε (List Char))
    (emptyE : FetchFail ε) :
    ∀ (r i : Nat), tryAttempts f emptyE i r =
      (match firstGoodFrom f i r with
       | some j => Except.ok (attemptText f j)
       | none => Except.error (lastCause f emptyE (i + r))) := by
  intro r
  induction r with
  | zero =>
    intro i
    unfold tryAttempts firstGoodFrom attemptGood attemptText lastCause
    cases hf : f i with
    | ok t =>
      by_cases hg : (pyStrip t).isEmpty
      · simp [hf, hg]
      · simp [hf, hg]
    | error e => simp [hf]
  | succ r ih =>
    intro i
    have harith : i + 1 + r = i + (r + 1) := by omega
    unfold tryAttempts firstGoodFrom attemptGood
    cases hf : f i with
    | ok t =>
      by_cases hg : (pyStrip t).isEmpty
      · simp [hf, hg, ih (i + 1), harith]
      · simp [hf, hg, attemptText]
    | error e =>
      simp [hf, ih (i + 1), harith]

theorem firstGoodFrom_none_iff {ε : Type} (f : Nat → Except ε (List Char)) :
    ∀ (r i : Nat), firstGoodFrom f i r = none ↔
      ∀ j, i ≤ j → j ≤ i + r → attemptGood f j = false := by
  intro r
  induction r with
  | zero =>
    intro i
    unfold firstGoodFrom
    cases hgv : attemptGood f i with
    | true =>
      rw [if_pos rfl]
      constructor
      · intro h; simp at h
      · intro hall
        exact absurd (hall i (le_refl i) (by omega)) (by simp [hgv])
    | false =>
      rw [if_neg (by simp)]
      constructor
      · intro _ j h1 h2
        have hji : j = i := by omega
        subst hji
        exact hgv
      · intro _; rfl
  | succ r ih =>
    intro i
    unfold firstGoodFrom
    cases hgv : attemptGood f i with
    | true =>
      rw [if_pos rfl]
      constructor
      · intro h; simp at h
      · intro hall
        exact absurd (hall i (le_refl i) (by omega)) (by simp [hgv])
    | false =>
      rw [if_neg (by simp), ih (i + 1)]
      constructor
      · intro h j h1 h2
        rcases Nat.eq_or_lt_of_le h1 with rfl | h1
        · exact hgv
        · exact h j h1 (by omega)
      · intro h j h1 h2
        exact h j (by omega) (by omega)

theorem firstGoodFrom_some {ε : Type} (f : Nat → Except ε (List Char)) :
    ∀ (r i j : Nat), firstGoodFrom f i r = some j →
      i ≤ j ∧ j ≤ i + r ∧ attemptGood f j = true ∧
        ∀ t, i ≤ t → t < j → attemptGood f t = false := by
  intro r
  induction r with
  | zero =>
    intro i j h
    unfold firstGoodFrom at h
    split at h
    · rename_i hg
      cases h
      exact ⟨le_refl _, by omega, hg, fun t h1 h2 => by omega⟩
    · cases h
  | succ r ih =>
    intro i j h
    unfold firstGoodFrom at h
    split at h
    · rename_i hg
      cases h
      exact ⟨le_refl _, by omega, hg, fun t h1 h2 => by omega⟩
    · rename_i hg
      have hg' : attemptGood f i = false := by
        cases hgv : attemptGood f i
        · rfl
        · exact absurd hgv hg
      obtain ⟨h1, h2, h3, h4⟩ := ih (i + 1) j h
      refine ⟨by omega, by omega, h3, ?_⟩
      intro t ht1 ht2
      rcases Nat.eq_or_lt_of_le ht1 with rfl | ht1
      · exact hg'
      · exact h4 t ht1 ht2

/-! Small facts about emptiness and the page anchor. -/

theorem bool_not_isEmpty {s : List Char} (h : s ≠ []) : (!s.isEmpty) = true := by
  cases s with
  | nil => exact absurd rfl h
  | cons a t => rfl

theorem present_of_contains {s page : List Char} (hne : s ≠ [])
    (h : containsSub s page = true) : present_in_page s page = true := by
  unfold present_in_page
  rw [if_neg]
  · exact h
  · intro hie
    cases s with
    | nil => exact hne rfl
    | cons a t => simp at hie

/-! ## The claims -/

/-- C1: for every candidate record (any JSON object, with extra keys,
missing keys or arbitrarily-shaped values), every template object and
every page text, the key list of the record returned by
`sanitize_and_validate` is exactly `ALLOWED_KEYS`, the schema's key set —
no key added, none omitted. -/
theorem claim1_sanitized_key_set (cand templ : List (String × Json)) (page : List Char) :
    (sanitize_and_validate cand templ page).map Prod.fst = ALLOWED_KEYS :=
  sanitize_keys_eq cand templ page

/-- C2: for the scalar-anchored fields `managing_body` and
`programme_name`, a value whose string coercion is non-empty and does not
occur verbatim in the page text is cleared to the empty string, and one
that does occur verbatim is kept. -/
theorem claim2_scalar_anchored (cand templ : List (String × Json)) (page : List Char)
    (k : String) (hk : k = "managing_body" ∨ k = "programme_name") :
    (scalarCoerce (lookupDefault cand templ k) ≠ [] →
      containsSub (scalarCoerce (lookupDefault cand templ k)) page = false →
      List.lookup k (sanitize_and_validate cand templ page) = some (SVal.s []))
    ∧ (containsSub (scalarCoerce (lookupDefault cand templ k)) page = true →
      List.lookup k (sanitize_and_validate cand templ page)
        = some (SVal.s (scalarCoerce (lookupDefault cand templ k)))) := by
  have hmem : k ∈ ALLOWED_KEYS := by rcases hk with rfl | rfl <;> decide
  have harr : k ∉ ARRAY_FIELDS := by rcases hk with rfl | rfl <;> decide
  have hdate : k ∉ DATE_KEYS := by rcases hk with rfl | rfl <;> decide
  have hmoney : k ∉ MONEY_KEYS := by rcases hk with rfl | rfl <;> decide
  rw [lookup_sanitize cand templ page k hmem]
  unfold sanitizeField
  rw [if_neg harr]
  unfold sanitizeScalar dateRewrite moneyAnchor anchorNamed
  rw [if_neg hdate, if_neg hmoney]
  constructor
  · intro hne hcs
    rw [if_pos ⟨hk, bool_not_isEmpty hne, present_of_not_contains hcs⟩]
  · intro hcs
    by_cases hs : scalarCoerce (lookupDefault cand templ k) = []
    · rw [if_neg]
      intro hcon
      rw [hs] at hcon
      simp at hcon
    · rw [if_neg]
      intro hcon
      rw [present_of_contains hs hcs] at hcon
      simp at hcon

/-- C2 witness: the end-to-end scenario of the spec — candidate
`managing_body = "Ministry X"` against a page that does not contain it
comes back as the empty string. -/
theorem claim2_scalar_anchored_witness :
    List.lookup "managing_body"
      (sanitize_and_validate [("managing_body", Json.str "Ministry X".toList)] []
        "nothing here".toList) = some (SVal.s []) :=
  (claim2_scalar_anchored [("managing_body", Json.str "Ministry X".toList)] []
      "nothing here".toList "managing_body" (Or.inl rfl)).1 (by decide) (by decide)

/-- C3 counterexample: the claim's token set ("a currency symbol or the
words EUR/USD/euro/dollar") is not the program's.  The page `"bâtiment"`
contains no currency indicator token in the claim's sense and not the
value `"5 million"` verbatim, yet the program keeps the value, because
the source regex's class is the mojibake `{U+00E2, U+201A, U+00AC, $}`
and the `â` of `bâtiment` matches it; conversely a page whose only
currency evidence is a genuine euro sign `€` (U+20AC) anchors nothing,
and the unsupported value `"42 m"` is cleared. -/
theorem claim3_money_token_cex :
    claimCurrencyToken "bâtiment".toList = false
    ∧ containsSub "5 million".toList "bâtiment".toList = false
    ∧ List.lookup "total_budget"
        (sanitize_and_validate [("total_budget", Json.str "5 million".toList)] []
          "bâtiment".toList) = some (SVal.s "5 million".toList)
    ∧ claimCurrencyToken "price € only".toList = true
    ∧ List.lookup "total_budget"
        (sanitize_and_validate [("total_budget", Json.str "42 m".toList)] []
          "price € only".toList) = some (SVal.s []) := by
  exact ⟨by decide, by decide, by rfl, by decide, by rfl⟩

/-- C3 amended: for the scalar-money fields, a value is cleared to the
empty string unless the page matches the program's `MONEY_TOKEN_RE` —
whose character class is the mojibake characters U+00E2/U+00C2, U+201A,
U+00AC and the dollar sign, not the euro sign — or one of the words
EUR/USD/euro/dollar case-insensitively, or the coerced value occurs
verbatim in the page; when either anchor holds the coerced value is
kept.  In particular, when the page matches neither the token pattern
nor the value, the sanitized value is the empty string. -/
theorem claim3_scalar_money (cand templ : List (String × Json)) (page : List Char)
    (k : String) (hk : k ∈ MONEY_KEYS) :
    (moneyTokenIn page = false →
      containsSub (scalarCoerce (lookupDefault cand templ k)) page = false →
      List.lookup k (sanitize_and_validate cand templ page) = some (SVal.s []))
    ∧ ((moneyTokenIn page = true
        ∨ containsSub (scalarCoerce (lookupDefault cand templ k)) page = true) →
      List.lookup k (sanitize_and_validate cand templ page)
        = some (SVal.s (scalarCoerce (lookupDefault cand templ k)))) := by
  have hmem : k ∈ ALLOWED_KEYS := (by decide : ∀ x ∈ MONEY_KEYS, x ∈ ALLOWED_KEYS) k hk
  have harr : k ∉ ARRAY_FIELDS := (by decide : ∀ x ∈ MONEY_KEYS, x ∉ ARRAY_FIELDS) k hk
  have hdate : k ∉ DATE_KEYS := (by decide : ∀ x ∈ MONEY_KEYS, x ∉ DATE_KEYS) k hk
  have hnm : ¬(k = "managing_body" ∨ k = "programme_name") :=
    (by decide : ∀ x ∈ MONEY_KEYS, ¬(x = "managing_body" ∨ x = "programme_name")) k hk
  rw [lookup_sanitize cand templ page k hmem]
  unfold sanitizeField
  rw [if_neg harr]
  unfold sanitizeScalar dateRewrite moneyAnchor anchorNamed
  rw [if_neg hdate, if_pos hk, if_neg (fun hcon => hnm hcon.1)]
  constructor
  · intro hmt hcs
    rw [if_neg (by simp [hmt, present_of_not_contains hcs])]
  · intro hor
    by_cases hs : scalarCoerce (lookupDefault cand templ k) = []
    · rw [if_neg (by simp [hs]), hs]
    · rcases hor with hmt | hcs
      · rw [if_pos (by simp [hmt, bool_not_isEmpty hs])]
      · rw [if_pos (by simp [present_of_contains hs hcs, bool_not_isEmpty hs])]

/-- C3 witness: a money value unsupported by the page (no currency token,
not a substring) is cleared. -/
theorem claim3_scalar_money_witness :
    List.lookup "total_budget"
      (sanitize_and_validate [("total_budget", Json.str "5 million".toList)] []
        "hello".toList) = some (SVal.s []) :=
  (claim3_scalar_money [("total_budget", Json.str "5 million".toList)] []
      "hello".toList "total_budget" (by decide)).1 (by decide) (by decide)

/-- C4: the sanitized `contact_info` equals `contacts_from_page` of the
page text for every candidate and template (the model's value has no
influence), and that list is emails, then phones, then URLs, each
category deduplicated and strictly sorted; identical page text gives the
identical (pure function) output. -/
theorem claim4_contacts_from_page_only (cand templ : List (String × Json))
    (page : List Char) :
    List.lookup "contact_info" (sanitize_and_validate cand templ page)
      = some (SVal.arr (contacts_from_page page))
    ∧ contacts_from_page page
      = (sortedSet (emailsFound page)).map (fun e => "email: ".toList ++ e)
        ++ (sortedSet (phonesFound page)).map (fun p => "phone: ".toList ++ p)
        ++ sortedSet (urlsFound page)
    ∧ List.Pairwise lexLt (sortedSet (emailsFound page))
    ∧ List.Pairwise lexLt (sortedSet (phonesFound page))
    ∧ List.Pairwise lexLt (sortedSet (urlsFound page)) := by
  refine ⟨?_, rfl, pairwise_lt_sortedSet _, pairwise_lt_sortedSet _, pairwise_lt_sortedSet _⟩
  rw [lookup_sanitize cand templ page _ (by decide)]
  unfold sanitizeField
  rw [if_pos (by decide), if_pos rfl]

/-- C5 counterexample: the claimed idempotence fails.  On
`"12/05/2021/11/2023"` one pass yields `"2021-05-12/11/2023"`; the
rewrite juxtaposes the day `12` with `/11/2023`, so a second pass matches
and rewrites `12/11/2023`, giving `"2021-05-2023-11-12"`. -/
theorem claim5_date_idempotence_cex :
    to_iso_dates_in_text (to_iso_dates_in_text "12/05/2021/11/2023".toList)
      ≠ to_iso_dates_in_text "12/05/2021/11/2023".toList := by decide

/-- C5 amended: the normalization is idempotent on every string
containing at most one `/` (such strings admit no `DD/MM/YYYY` match, so
one pass already leaves them unchanged); in general it is not
idempotent. -/
theorem claim5_date_idempotent_single_slash (s : List Char)
    (h : List.count '/' s ≤ 1) :
    to_iso_dates_in_text (to_iso_dates_in_text s) = to_iso_dates_in_text s := by
  have h1 := to_iso_unchanged h
  rw [h1]
  exact h1

/-- C5 witness: a slash-free date string is a fixed point, hence
idempotent. -/
theorem claim5_date_idempotent_witness :
    List.count '/' "deadline 31-12-1999 or mid 2024".toList ≤ 1
    ∧ to_iso_dates_in_text (to_iso_dates_in_text "deadline 31-12-1999 or mid 2024".toList)
        = to_iso_dates_in_text "deadline 31-12-1999 or mid 2024".toList :=
  ⟨by decide, claim5_date_idempotent_single_slash "deadline 31-12-1999 or mid 2024".toList
    (by decide)⟩

/-- C6: the response parser succeeds exactly when the cleaned and sliced
reply decodes to a non-empty JSON array whose first element is an object
(that element leading the returned list), and on the three reference
inputs it returns `[{"a": 1}]`, `[{"a": 1}]`, and a parse failure. -/
theorem claim6_response_extraction :
    (∀ (raw : List Char) (l : List Json), extract_json raw = some l ↔
       (∃ x xs, l = x :: xs ∧ safe_read_json (cleanReply raw) = some (Json.arr l)
         ∧ isJsonObj x = true))
    ∧ extract_json "\x60\x60\x60json\n[\x7b\"a\":1\x7d]\n\x60\x60\x60".toList
        = some [Json.obj [("a", Json.num 1)]]
    ∧ extract_json "prefix [\x7b\"a\":1\x7d] suffix".toList
        = some [Json.obj [("a", Json.num 1)]]
    ∧ extract_json "no json here".toList = none := by
  refine ⟨?_, by rfl, by rfl, by rfl⟩
  intro raw l
  constructor
  · intro h
    unfold extract_json at h
    split at h
    · rename_i x xs heq
      split at h
      · rename_i hobj
        cases h
        exact ⟨x, xs, rfl, heq, hobj⟩
      · cases h
    · cases h
  · rintro ⟨x, xs, rfl, heq, hobj⟩
    unfold extract_json
    rw [heq]
    simp [hobj]

/-- C7: `run_with_warning` is outcome-transparent — the caller receives
exactly the wrapped call's returned value or exactly its raised
exception, whatever steps, messages and heartbeat schedule are in
effect. -/
theorem claim7_monitor_outcome_transparent {α ε : Type} (call : Unit → Except ε α)
    (activity_steps : List (List Char)) (activity_msg warning_msg : Option (List Char))
    (elapsedAt : Nat → Nat) (k : Nat) :
    (run_with_warning call activity_steps activity_msg warning_msg elapsedAt k).2
      = match call () with
        | .ok v => .ok (some v)
        | .error e => .error e := by
  unfold run_with_warning targetWrite
  cases hc : call () with
  | ok v => rfl
  | error e => rfl

/-- C8: `read_link` runs the mode selected by `is_probable_pdf_url` for
`max_retries + 1` attempts, returns the text of the first attempt
yielding non-empty, non-whitespace text, and otherwise fails carrying the
last attempt's underlying cause; `firstGoodFrom` is certified as "the
first good attempt index, none when every attempt fails". -/
theorem claim8_read_link_retries {ε : Type} (url : List Char)
    (html pdf : Nat → Except ε (List Char)) (max_retries : Nat) :
    (read_link url html pdf max_retries
      = (match firstGoodFrom (if is_probable_pdf_url url then pdf else html) 0 max_retries with
         | some j => Except.ok (attemptText (if is_probable_pdf_url url then pdf else html) j)
         | none => Except.error (lastCause (if is_probable_pdf_url url then pdf else html)
             (if is_probable_pdf_url url then FetchFail.emptyPdfText else FetchFail.emptyBody)
             max_retries)))
    ∧ (∀ f : Nat → Except ε (List Char),
        (firstGoodFrom f 0 max_retries = none ↔
          ∀ i, i ≤ max_retries → attemptGood f i = false))
    ∧ (∀ (f : Nat → Except ε (List Char)) (j : Nat),
        firstGoodFrom f 0 max_retries = some j →
          j ≤ max_retries ∧ attemptGood f j = true ∧
            ∀ i, i < j → attemptGood f i = false) := by
  refine ⟨?_, ?_, ?_⟩
  · unfold read_link
    cases hp : is_probable_pdf_url url with
    | true => simpa using tryAttempts_eq pdf FetchFail.emptyPdfText max_retries 0
    | false => simpa using tryAttempts_eq html FetchFail.emptyBody max_retries 0
  · intro f
    have h := firstGoodFrom_none_iff f max_retries 0
    simpa using h
  · intro f j h
    have h2 := firstGoodFrom_some f max_retries 0 j h
    obtain ⟨_, h2, h3, h4⟩ := h2
    exact ⟨by omega, h3, fun i hi => h4 i (by omega) hi⟩

/-- C9 counterexample: the loader keeps an override whose top-level value
is a two-object list — a shape the claim ("exactly one object") says
falls back to the built-in default. -/
theorem claim9_override_cex :
    load_response_template true (Except.ok (Json.arr [Json.obj [], Json.obj []]))
        = [Json.obj [], Json.obj []]
    ∧ claimExactlyOneObject (Except.ok (Json.arr [Json.obj [], Json.obj []])) = false
    ∧ [Json.obj [], Json.obj []] ≠ TEMPLATE_DEFAULT := by
  refine ⟨rfl, rfl, ?_⟩
  intro h
  simp [TEMPLATE_DEFAULT, TEMPLATE_DEFAULT_FIELDS] at h

/-- C9 amended: the loader returns the override file's content exactly
when the file exists, is readable, and parses as JSON whose top-level
value is a non-empty list whose first element is an object; in every
other case it returns the built-in default schema. -/
theorem claim9_override_loader (fileExists : Bool) (ro : Except Unit Json) :
    load_response_template fileExists ro
      = if fileExists && overrideShapeOk ro then overrideContent ro
        else TEMPLATE_DEFAULT := by
  cases fileExists with
  | false => simp [load_response_template]
  | true =>
    cases ro with
    | error e => simp [load_response_template, overrideShapeOk]
    | ok v =>
      cases v with
      | null => simp [load_response_template, overrideShapeOk]
      | bool b => simp [load_response_template, overrideShapeOk]
      | num n => simp [load_response_template, overrideShapeOk]
      | str s => simp [load_response_template, overrideShapeOk]
      | obj f => simp [load_response_template, overrideShapeOk]
      | arr l =>
        cases l with
        | nil => simp [load_response_template, overrideShapeOk]
        | cons x xs =>
          cases hobj : isJsonObj x with
          | true =>
            simp [load_response_template, overrideShapeOk, overrideContent, hobj]
          | false =>
            simp [load_response_template, overrideShapeOk, hobj]

/-- C10: the output key list of `sanitize_and_validate` is always
`ALLOWED_KEYS` (the built-in default template's key set) whatever
template object is passed, and for any key the candidate itself carries,
the template argument has no influence on the sanitized value. -/
theorem claim10_template_only_defaults (cand templ templ2 : List (String × Json))
    (page : List Char) :
    (sanitize_and_validate cand templ page).map Prod.fst = ALLOWED_KEYS
    ∧ (∀ k : String, (List.lookup k cand).isSome = true →
        List.lookup k (sanitize_and_validate cand templ page)
          = List.lookup k (sanitize_and_validate cand templ2 page)) := by
  refine ⟨sanitize_keys_eq cand templ page, ?_⟩
  intro k hk
  obtain ⟨v, hv⟩ := Option.isSome_iff_exists.mp hk
  by_cases hmem : k ∈ ALLOWED_KEYS
  · rw [lookup_sanitize cand templ page k hmem, lookup_sanitize cand templ2 page k hmem]
    unfold lookupDefault
    rw [hv]
  · rw [lookup_sanitize_none cand templ page k hmem,
      lookup_sanitize_none cand templ2 page k hmem]

end LlmAxe
